import Mathlib

/-!
Verification of the distributed Game of Life broker/worker core.

Shallow embedding of the Go sources:
* `src/gol/broker/broker.go` — broker data model, partitioning (`World.region`),
  fan-out/fan-in reassembly (`World.update`), alive-cell counting (`World.alive`),
  and the control-plane RPC handlers (`Process`, `Report`, `Save`, `Quit`, `Pause`).
* `src/unnamed/part_001` — the worker's rule-application step (`Region.update`).

Go slices `[][]Cell` are modelled as `List (List Cell)`; out-of-range reads
use `List.getD` with the Go zero value (the theorems carry the well-formedness
hypotheses under which the Go code never indexes out of range).  Go `int`
values that are provably non-negative in every reachable use (heights, widths,
row indices, worker counts, turn counters) are modelled as `Nat`; the one
signed intermediate, `start - 1 + world.Height` in `World.region`, is written
`start + world.Height - 1`, which agrees with the Go expression whenever
`world.Height ≥ 1` (every claim assumes a positive height).  Go's `%` agrees
with `Nat.mod` / `Int.emod` on the non-negative operands used here.
-/

namespace GoL

/-- Go `Cell` (broker.go lines 20-24): alive state at integer coordinates. -/
structure Cell where
  X : Int
  Y : Int
  Alive : Bool
deriving DecidableEq, Repr

/-- The Go zero value `Cell{}`. -/
def cellZero : Cell := ⟨0, 0, false⟩

instance : Inhabited Cell := ⟨cellZero⟩

/-- Go `Field` (broker.go lines 26-30). -/
structure Field where
  Data : List (List Cell)
  Height : Nat
  Width : Nat
deriving DecidableEq, Repr

/-- Go `Region` (broker.go lines 32-38): a band plus halo rows, with the
band's start/end row indices in grid coordinates. -/
structure Region where
  Field : List (List Cell)
  Start : Nat
  End : Nat
  Height : Nat
  Width : Nat
deriving DecidableEq, Repr

/-- Go `World` (broker.go lines 40-44). -/
structure World where
  Field : Field
  Height : Nat
  Width : Nat
deriving DecidableEq, Repr

/-- Go constant `DefaultHaloOffset = 1`. -/
def DefaultHaloOffset : Nat := 1

/-- Row `y` of a `[][]Cell` slice; missing rows read as the empty row. -/
def getRow (f : List (List Cell)) (y : Nat) : List Cell := f.getD y []

/-- Entry `f[y][x]` of a `[][]Cell` slice; missing entries read as `Cell{}`. -/
def getCell (f : List (List Cell)) (y x : Nat) : Cell := (getRow f y).getD x cellZero

/-- The worker's neighbour-offset enumeration (part_001 lines 76-85): outer
loop `i` is the column offset, inner loop `j` is the row offset. -/
def offsets : List (Int × Int) :=
  [(-1, -1), (-1, 0), (-1, 1), (0, -1), (0, 0), (0, 1), (1, -1), (1, 0), (1, 1)]

/-- The worker's wrapped column index (part_001 lines 78-81):
`wx := x + i; wx += width; wx %= width`. -/
def wrapX (width x : Nat) (i : Int) : Nat :=
  (((x : Int) + i + (width : Int)) % (width : Int)).toNat

/-- The worker's alive-neighbour count for the cell at row `y`, column `x`
(part_001 lines 75-86): positions `(y + j, (x + i + width) % width)` for the
nine offsets, the centre `(i, j) = (0, 0)` excluded by the loop guard. -/
def aliveNeighbours (field : List (List Cell)) (width y x : Nat) : Nat :=
  offsets.countP (fun p =>
    (p.2 != 0 || p.1 != 0) &&
      (getCell field (((y : Int) + p.2).toNat) (wrapX width x p.1)).Alive)

/-- One output cell of the worker step (part_001 lines 73-93): copy the input
cell, then clear `Alive` when the neighbour count is `< 2` or `> 3`, then set
`Alive` when the count is exactly `3` (the Go statement order). -/
def Region.updateCell (region : Region) (y x : Nat) : Cell :=
  let currentCell := getCell region.Field y x
  let n := aliveNeighbours region.Field region.Width y x
  let a1 := if n < 2 ∨ 3 < n then false else currentCell.Alive
  let a2 := if n = 3 then true else a1
  { currentCell with Alive := a2 }

/-- The worker's rule step `region.update` (part_001 lines 64-98): a fresh
`Height × Width` grid whose row `r` (written at `field.Data[y-1]` by the Go
loop running `y` from `DefaultHaloOffset` to `Height + DefaultHaloOffset - 1`)
holds the recomputed band cells; only `Field` is replaced. -/
def Region.update (region : Region) : Region :=
  let data := (List.range region.Height).map (fun r =>
    (List.range region.Width).map (fun x =>
      region.updateCell (r + DefaultHaloOffset) x))
  { region with Field := data }

/-- Broker partitioning `world.region(w, numWorkers)` (broker.go lines
136-166): band `[start, end)` with `bandHeight = Height / numWorkers`, the
last worker absorbing the remainder, bracketed by the wraparound halo rows
`(start - 1 + Height) % Height` (written `start + Height - 1` in `Nat`) and
`end % Height`. -/
def World.region (world : World) (w numWorkers : Nat) : Region :=
  let regionHeight0 := world.Height / numWorkers
  let start := w * regionHeight0
  let endRow := if w = numWorkers - 1 then world.Height else (w + 1) * regionHeight0
  let regionHeight := endRow - start
  let downRowPtr := endRow % world.Height
  let upRowPtr := (start + world.Height - 1) % world.Height
  let data :=
    getRow world.Field.Data upRowPtr ::
      ((List.range regionHeight).map (fun row => getRow world.Field.Data (start + row)) ++
        [getRow world.Field.Data downRowPtr])
  { Field := data, Start := start, End := endRow, Height := regionHeight,
    Width := world.Width }

/-- Broker fan-out/fan-in `world.update(workerAddrs)` (broker.go lines
168-196): one region per worker, each answered by the worker's
`WorkerService.Process` (which applies `Region.update`, part_001 lines
100-106), the returned bands concatenated in worker-index order into
`Field.Data`.  The RPC round trip is modelled by its computational content;
`numWorkers` stands for `len(workerAddrs)`. -/
def World.update (world : World) (numWorkers : Nat) : World :=
  let newFieldData := (List.range numWorkers).flatMap
    (fun workerID => ((world.region workerID numWorkers).update).Field)
  { world with Field := { world.Field with Data := newFieldData } }

/-- Go `util.Cell`: a reported coordinate pair. -/
structure UtilCell where
  X : Nat
  Y : Nat
deriving DecidableEq, Repr

/-- Go `aliveCellsInRow` (broker.go lines 198-206). -/
def aliveCellsInRow (row : List Cell) (y : Nat) : List UtilCell :=
  row.enum.filterMap (fun p => if p.2.Alive then some ⟨p.1, y⟩ else none)

/-- Go `world.alive()` (broker.go lines 208-214). -/
def World.alive (world : World) : List UtilCell :=
  world.Field.Data.enum.flatMap (fun p => aliveCellsInRow p.2 p.1)

/-- The Go zero value `World{}` (assigned by `Quit`, broker.go line 270). -/
def World.zero : World := ⟨⟨[], 0, 0⟩, 0, 0⟩

/-- Go `BrokerProcessRequest` (broker.go lines 48-51). -/
structure BrokerProcessRequest where
  Turns : Nat
  World : World
deriving DecidableEq, Repr

/-- Go `BrokerProcessResponse` (broker.go lines 53-56). -/
structure BrokerProcessResponse where
  World : World
  Turns : Nat
deriving DecidableEq, Repr

/-- Go `BrokerReportResponse` (broker.go lines 60-63). -/
structure BrokerReportResponse where
  Turns : Nat
  CellsCount : Nat
deriving DecidableEq, Repr

/-- Go `BrokerSaveResponse` (broker.go lines 67-70). -/
structure BrokerSaveResponse where
  Turns : Nat
  World : World
deriving DecidableEq, Repr

/-- Go `BrokerQuitResponse` (broker.go lines 74-76). -/
structure BrokerQuitResponse where
  Turns : Nat
deriving DecidableEq, Repr

/-- Go `BrokerPauseResponse` (broker.go lines 86-89). -/
structure BrokerPauseResponse where
  Turns : Nat
  IsPaused : Bool
deriving DecidableEq, Repr

/-- The mutable session fields of Go `BrokerService` (broker.go lines 91-100).
The channels `quit`/`shutdown`/`pause` are modelled by the `LoopEvent` trace
consumed by the run loop, and the worker address list by its length. -/
structure BrokerState where
  Turns : Nat
  CellsCount : Nat
  World : World
  isPaused : Bool
deriving DecidableEq, Repr

/-- The session state at broker start-up (broker.go lines 310-316: Go
zero-valued exported fields, `isPaused: false`). -/
def BrokerState.init : BrokerState := ⟨0, 0, World.zero, false⟩

/-- The Go zero value of `BrokerProcessResponse`: what `Process` sends when it
returns without assigning `res` (the quit branch, broker.go line 238). -/
def zeroProcessResponse : BrokerProcessResponse := ⟨World.zero, 0⟩

/-- What the `select` statement in the run loop observes on one iteration
(broker.go lines 229-250): a value pending on the `pause` channel, a value
pending on the `quit` channel, or neither (the `default` branch fires). -/
inductive LoopEvent where
  | pauseReady (v : Bool)
  | quitReady
  | noSignal
deriving DecidableEq, Repr

/-- Result of one iteration of the run loop: either the procedure returns
(carrying the response it sends), or the loop continues with updated broker
state, local world, and local turn counter; `computed` records whether the
iteration performed a fan-out/fan-in generation. -/
inductive IterOutcome where
  | ret (b : BrokerState) (res : BrokerProcessResponse)
  | cont (b : BrokerState) (world : World) (turn : Nat) (computed : Bool)
deriving DecidableEq, Repr

/-- Whether an iteration outcome performed a compute step. -/
def IterOutcome.computed : IterOutcome → Bool
  | .ret _ _ => false
  | .cont _ _ _ c => c

/-- One iteration of the `Process` run loop (broker.go lines 228-250).

The pause branch stores the received flag in `b.isPaused`; when the flag is
`true` the Go code then blocks on a second receive whose value it discards,
so the paused period appears in this model as idle `noSignal` iterations and
the resume as a later `pauseReady` event carrying the flag the resuming
`Pause` call flipped.  The quit branch is Go's bare `return nil`: the loop
stops and the response is sent with its fields untouched, i.e. zero-valued.
The default branch, when not paused, runs one generation, increments
`b.Turns`, recounts the alive cells of the updated world, stores the updated
world in the session, and advances the local turn counter. -/
def processIter (workers : Nat) (b : BrokerState) (world : World) (turn : Nat) :
    LoopEvent → IterOutcome
  | .pauseReady v => .cont { b with isPaused := v } world turn false
  | .quitReady => .ret b zeroProcessResponse
  | .noSignal =>
    if b.isPaused then .cont b world turn false
    else
      let world2 := world.update workers
      let b2 : BrokerState :=
        { b with Turns := b.Turns + 1, CellsCount := (world2.alive).length,
                 World := world2 }
      .cont b2 world2 (turn + 1) true

/-- The `Process` run loop (broker.go lines 226-256) driven by a trace of
per-iteration channel observations; `none` when the trace is too short to
determine the outcome.  After `turn` reaches `turns` the response carries the
local world and the session turn counter (broker.go lines 253-254). -/
def processLoop (workers turns : Nat) :
    List LoopEvent → BrokerState → World → Nat →
    Option (BrokerState × BrokerProcessResponse)
  | events, b, world, turn =>
    if turn < turns then
      match events with
      | [] => none
      | e :: es =>
        match processIter workers b world turn e with
        | .ret b2 res => some (b2, res)
        | .cont b2 world2 turn2 _ => processLoop workers turns es b2 world2 turn2
    else
      some (b, ⟨world, b.Turns⟩)

/-- Go `BrokerService.Process` (broker.go lines 222-257). -/
def BrokerService.Process (workers : Nat) (b : BrokerState)
    (req : BrokerProcessRequest) (events : List LoopEvent) :
    Option (BrokerState × BrokerProcessResponse) :=
  processLoop workers req.Turns events b req.World 0

/-- Go `BrokerService.Report` (broker.go lines 216-220): reads the session,
mutates nothing. -/
def BrokerService.Report (b : BrokerState) : BrokerState × BrokerReportResponse :=
  (b, ⟨b.Turns, b.CellsCount⟩)

/-- Go `BrokerService.Save` (broker.go lines 259-263). -/
def BrokerService.Save (b : BrokerState) : BrokerState × BrokerSaveResponse :=
  (b, ⟨b.Turns, b.World⟩)

/-- Go `BrokerService.Quit` (broker.go lines 265-275): the response captures
`b.Turns` first, then the session is reset to zero values; the send on the
`quit` channel is the `LoopEvent.quitReady` observation of the run loop. -/
def BrokerService.Quit (b : BrokerState) : BrokerState × BrokerQuitResponse :=
  (⟨0, 0, World.zero, b.isPaused⟩, ⟨b.Turns⟩)

/-- Go `BrokerService.Pause` (broker.go lines 297-303): flips the paused flag
and reports the new flag with the turn count; the send on the `pause` channel
is the `LoopEvent.pauseReady` observation of the run loop. -/
def BrokerService.Pause (b : BrokerState) : BrokerState × BrokerPauseResponse :=
  let b2 : BrokerState := { b with isPaused := !b.isPaused }
  (b2, ⟨b2.Turns, b2.isPaused⟩)

/-- The session-consistency invariant: the cached alive-cell count matches
the alive cells of the cached world snapshot. -/
def cellsInvariant (b : BrokerState) : Prop :=
  b.CellsCount = (b.World.alive).length

instance (b : BrokerState) : Decidable (cellsInvariant b) := by
  unfold cellsInvariant; infer_instance

end GoL

namespace GoL

/-- A 1×1 world holding one alive cell, used as a concrete test input. -/
def exW1 : World := ⟨⟨[[⟨0, 0, true⟩]], 1, 1⟩, 1, 1⟩

/-- A 3×1 world, used as a concrete test input for partitioning. -/
def exW3 : World :=
  ⟨⟨[[⟨0, 0, true⟩], [⟨0, 1, false⟩], [⟨0, 2, true⟩]], 3, 1⟩, 3, 1⟩

/-- The 1×1 world after one generation: the single cell counts itself eight
times through the wraparound and dies of overpopulation. -/
def exW9 : World := ⟨⟨[[⟨0, 0, false⟩]], 1, 1⟩, 1, 1⟩

/-- Session state after one completed turn from `exW1`. -/
def exB9 : BrokerState := ⟨1, 0, exW9, false⟩

/-- A mid-run session state: 3 turns completed, snapshot `exW1`. -/
def exB5 : BrokerState := ⟨3, 1, exW1, false⟩

/-- The 8 neighbour offsets (column offset, row offset) as claim C2 words
them: the 8 surrounding positions, the cell itself excluded. -/
def specOffsets : List (Int × Int) :=
  [(-1, -1), (-1, 0), (-1, 1), (0, -1), (0, 1), (1, -1), (1, 0), (1, 1)]

/-- Alive-neighbour count as claim C2 words it for the band cell at `(r, c)`:
alive cells among the 8 neighbours of input-array position `(r + 1, c)`, the
cell itself excluded, the column wrapped modulo `width`, the vertical
neighbours taken from the adjacent rows of the supplied row array. -/
def specAliveNeighbours (field : List (List Cell)) (width r c : Nat) : Nat :=
  specOffsets.countP (fun p =>
    (getCell field (((r : Int) + 1 + p.2).toNat)
      ((((c : Int) + p.1) % (width : Int)).toNat)).Alive)

/-- C6: `Quit` answers with the turn count at the moment of the request,
resets the session to turns = 0, alive-cell count = 0 and the empty world,
and a subsequent `Report` then answers turns = 0, aliveCellsCount = 0. -/
theorem quit_resets_session (b : BrokerState) :
    (BrokerService.Quit b).2.Turns = b.Turns ∧
    (BrokerService.Quit b).1.Turns = 0 ∧
    (BrokerService.Quit b).1.CellsCount = 0 ∧
    (BrokerService.Quit b).1.World = World.zero ∧
    (BrokerService.Report (BrokerService.Quit b).1).2 = ⟨0, 0⟩ := by
  simp [BrokerService.Quit, BrokerService.Report]

/-- C7: an iteration of the run loop that sees a pending quit signal never
performs a compute step, and a compute step happens exactly on iterations
where no signal is pending and the broker is not paused — so a pending quit
is never skipped in favour of one more generation. -/
theorem iter_compute_only_when_no_signal (workers : Nat) (b : BrokerState)
    (world : World) (turn : Nat) :
    (processIter workers b world turn LoopEvent.quitReady).computed = false ∧
    ∀ e, ((processIter workers b world turn e).computed = true ↔
      (e = LoopEvent.noSignal ∧ b.isPaused = false)) := by
  refine ⟨rfl, ?_⟩
  intro e
  cases e <;> by_cases h : b.isPaused <;>
    simp [processIter, IterOutcome.computed, h]

/-- C9: the session field `CellsCount` always equals the number of alive
cells of the session's stored world snapshot: it holds at start-up, it is
preserved by every outcome of a run-loop iteration (in particular re-established
by each completed turn), by `Report`, `Save` and `Pause`, and `Quit` resets
count and world together. -/
theorem cells_count_invariant :
    cellsInvariant BrokerState.init ∧
    (∀ workers b world turn e b2 world2 turn2 c, cellsInvariant b →
      processIter workers b world turn e = IterOutcome.cont b2 world2 turn2 c →
      cellsInvariant b2) ∧
    (∀ workers b world turn e b2 res, cellsInvariant b →
      processIter workers b world turn e = IterOutcome.ret b2 res →
      cellsInvariant b2) ∧
    (∀ b, cellsInvariant b → cellsInvariant (BrokerService.Report b).1) ∧
    (∀ b, cellsInvariant b → cellsInvariant (BrokerService.Save b).1) ∧
    (∀ b, cellsInvariant b → cellsInvariant (BrokerService.Pause b).1) ∧
    (∀ b, cellsInvariant (BrokerService.Quit b).1) := by
  refine ⟨by decide, ?_, ?_, ?_, ?_, ?_, ?_⟩
  · intro workers b world turn e b2 world2 turn2 c hb heq
    cases e with
    | pauseReady v =>
      simp only [processIter, IterOutcome.cont.injEq] at heq
      obtain ⟨h1, -, -, -⟩ := heq
      subst h1
      simpa [cellsInvariant] using hb
    | quitReady => simp [processIter] at heq
    | noSignal =>
      by_cases h : b.isPaused <;>
        simp only [processIter, h, if_true, if_false, Bool.false_eq_true,
          IterOutcome.cont.injEq] at heq
      · obtain ⟨h1, -, -, -⟩ := heq
        subst h1
        exact hb
      · obtain ⟨h1, h2, -, -⟩ := heq
        subst h1
        simp [cellsInvariant]
  · intro workers b world turn e b2 res hb heq
    cases e with
    | pauseReady v => simp [processIter] at heq
    | quitReady =>
      simp only [processIter, IterOutcome.ret.injEq] at heq
      obtain ⟨h1, -⟩ := heq
      subst h1
      exact hb
    | noSignal =>
      by_cases h : b.isPaused <;> simp [processIter, h] at heq
  · intro b hb
    simpa [cellsInvariant, BrokerService.Report] using hb
  · intro b hb
    simpa [cellsInvariant, BrokerService.Save] using hb
  · intro b hb
    simpa [cellsInvariant, BrokerService.Pause] using hb
  · intro b
    simp [cellsInvariant, BrokerService.Quit, World.alive, World.zero]

/-- Witness for C9: the invariant holds at start-up and is carried across the
concrete completed turn `exW1 → exW9`. -/
theorem cells_count_invariant_witness :
    cellsInvariant BrokerState.init ∧ cellsInvariant exB9 :=
  ⟨cells_count_invariant.1,
   cells_count_invariant.2.1 1 BrokerState.init exW1 0 LoopEvent.noSignal
     exB9 exW9 1 true (by decide) (by decide)⟩

/-- C5 counterexample: quitting a 5-turn run from session `exB5` (3 turns
done, snapshot `exW1`) before any further generation returns the zero-valued
response — an empty world and turn count 0 — not the world state reached
(`exW1`) with the turn count reached (3): the Go quit branch is `return nil`
with the response fields never assigned. -/
theorem process_quit_response_is_zero_valued :
    BrokerService.Process 1 exB5 ⟨5, exW1⟩ [LoopEvent.quitReady]
        = some (exB5, zeroProcessResponse) ∧
    zeroProcessResponse.World ≠ exW1 ∧
    zeroProcessResponse.Turns ≠ exB5.Turns := by decide

/-- C5 as amended: a pending quit signal aborts the run immediately — the
rest of the trace is never consumed, no further turn runs, and the session
state is untouched by that iteration — but the response sent is the
zero-valued `BrokerProcessResponse` (empty world, turns 0); the state that
was reached survives only in the broker session, not in the response. -/
theorem process_pending_quit_aborts (workers turns : Nat) (es : List LoopEvent)
    (b : BrokerState) (world : World) (turn : Nat) (h : turn < turns) :
    processLoop workers turns (LoopEvent.quitReady :: es) b world turn
      = some (b, zeroProcessResponse) := by
  simp [processLoop, processIter, h]

/-- Witness for the amended C5 at a concrete mid-run state. -/
theorem process_pending_quit_aborts_witness :
    (0 : Nat) < 5 ∧
    processLoop 1 5 [LoopEvent.quitReady] exB5 exW1 0
      = some (exB5, zeroProcessResponse) :=
  ⟨by decide, process_pending_quit_aborts 1 5 [] exB5 exW1 0 (by decide)⟩

/-- C8: the broker performs no configuration validation.  With grid height 1
and 2 configured workers (workers > height, worker 0's band has height 0) the
run is not rejected: the first loop iteration performs a compute step and the
run completes normally. -/
theorem run_proceeds_without_config_validation :
    (exW1.region 0 2).Height = 0 ∧
    (processIter 2 BrokerState.init exW1 0 LoopEvent.noSignal).computed = true ∧
    (BrokerService.Process 2 BrokerState.init ⟨1, exW1⟩
        [LoopEvent.noSignal]).isSome = true := by decide

/-- `getD` on a mapped `range` picks out the function value. -/
theorem getD_map_range {α : Type} (f : Nat → α) (n r : Nat) (d : α) (h : r < n) :
    ((List.range n).map f).getD r d = f r := by
  simp [List.getD_eq_getElem?_getD, List.getElem?_map, List.getElem?_range h]

/-- `getRow` on a cons at index 0. -/
theorem getRow_cons_zero (a : List Cell) (l : List (List Cell)) :
    getRow (a :: l) 0 = a := rfl

/-- `getRow` on a cons at a successor index. -/
theorem getRow_cons_succ (a : List Cell) (l : List (List Cell)) (n : Nat) :
    getRow (a :: l) (n + 1) = getRow l n := by
  simp [getRow, List.getD_cons_succ]

/-- `getRow` on an append, index inside the first part. -/
theorem getRow_append (l l' : List (List Cell)) (n : Nat) (h : n < l.length) :
    getRow (l ++ l') n = getRow l n :=
  List.getD_append l l' [] n h

/-- `getRow` on an append, index past the first part. -/
theorem getRow_append_right (l l' : List (List Cell)) (n : Nat) (h : l.length ≤ n) :
    getRow (l ++ l') n = getRow l' (n - l.length) :=
  List.getD_append_right l l' [] n h

/-- `getRow` on a mapped `range`. -/
theorem getRow_map_range (f : Nat → List Cell) (n r : Nat) (h : r < n) :
    getRow ((List.range n).map f) r = f r :=
  getD_map_range f n r [] h

/-- Equal-width bands laid end to end starting at multiples of the band
height cover an initial segment of the row indices. -/
theorem flatMap_range'_mul (n bh : Nat) :
    (List.range n).flatMap (fun w => List.range' (w * bh) bh)
      = List.range (n * bh) := by
  induction n with
  | zero => simp
  | succ m ih =>
    rw [List.range_succ, List.flatMap_append, ih, List.flatMap_cons,
      List.flatMap_nil, List.append_nil, List.range_eq_range' (m * bh),
      List.range_eq_range' ((m + 1) * bh)]
    have happ := List.range'_append 0 (m * bh) bh 1
    simp only [one_mul, Nat.zero_add] at happ
    rw [happ]
    congr 1
    ring

/-- Arithmetic core of the partitioning: the broker's band row ranges,
`[w*bh, (w+1)*bh)` with the last worker taking `[(k-1)*bh, h)`, concatenate
to exactly `[0, h)`. -/
theorem partition_flatMap_arith (h k : Nat) (hk : 1 ≤ k) (hkh : k ≤ h) :
    (List.range k).flatMap (fun w =>
        List.range' (w * (h / k))
          ((if w = k - 1 then h else (w + 1) * (h / k)) - w * (h / k)))
      = List.range h := by
  obtain ⟨p, rfl⟩ : ∃ p, k = p + 1 := ⟨k - 1, by omega⟩
  have hkbh : (p + 1) * (h / (p + 1)) ≤ h := by
    rw [mul_comm]
    exact Nat.div_mul_le_self h (p + 1)
  have hpbh : p * (h / (p + 1)) ≤ h :=
    le_trans (mul_le_mul_right' (by omega) _) hkbh
  rw [List.range_succ, List.flatMap_append, List.flatMap_cons, List.flatMap_nil,
    List.append_nil]
  have hcongr : (List.range p).flatMap (fun w =>
        List.range' (w * (h / (p + 1)))
          ((if w = p + 1 - 1 then h else (w + 1) * (h / (p + 1)))
            - w * (h / (p + 1))))
      = (List.range p).flatMap (fun w =>
          List.range' (w * (h / (p + 1))) (h / (p + 1))) := by
    apply List.flatMap_congr
    intro w hw
    rw [List.mem_range] at hw
    rw [if_neg (by omega)]
    congr 1
    rw [Nat.succ_mul]
    exact Nat.add_sub_cancel_left _ _
  rw [hcongr, flatMap_range'_mul, if_pos (by omega),
    List.range_eq_range' (p * (h / (p + 1))), List.range_eq_range' h]
  have happ := List.range'_append 0 (p * (h / (p + 1))) (h - p * (h / (p + 1))) 1
  simp only [one_mul, Nat.zero_add] at happ
  rw [happ]
  congr 1
  omega

/-- The band width of every region is the world width. -/
theorem region_Width (world : World) (w k : Nat) :
    (world.region w k).Width = world.Width := rfl

/-- The row array built by `World.region`, spelled out. -/
theorem region_Field_def (world : World) (w k : Nat) :
    (world.region w k).Field
      = getRow world.Field.Data
            (((world.region w k).Start + world.Height - 1) % world.Height) ::
          ((List.range (world.region w k).Height).map
              (fun row => getRow world.Field.Data ((world.region w k).Start + row)) ++
            [getRow world.Field.Data ((world.region w k).End % world.Height)]) := rfl

/-- Every band is non-empty when `1 ≤ workers ≤ height`. -/
theorem region_Start_lt_End (world : World) (k w : Nat) (hk : 1 ≤ k)
    (hkh : k ≤ world.Height) (hw : w < k) :
    (world.region w k).Start < (world.region w k).End := by
  have hbh1 : 1 ≤ world.Height / k := (Nat.one_le_div_iff (by omega)).mpr hkh
  have hkbh : k * (world.Height / k) ≤ world.Height := by
    rw [mul_comm]
    exact Nat.div_mul_le_self _ _
  have hwk : (w + 1) * (world.Height / k) ≤ k * (world.Height / k) :=
    mul_le_mul_right' (by omega) _
  have hsm : (w + 1) * (world.Height / k)
      = w * (world.Height / k) + world.Height / k := by ring
  show w * (world.Height / k)
      < if w = k - 1 then world.Height else (w + 1) * (world.Height / k)
  by_cases hc : w = k - 1
  · rw [if_pos hc]
    omega
  · rw [if_neg hc]
    omega

/-- Band end indices never pass the grid height. -/
theorem region_End_le (world : World) (k w : Nat) (hk : 1 ≤ k)
    (hkh : k ≤ world.Height) (hw : w < k) :
    (world.region w k).End ≤ world.Height := by
  show (if w = k - 1 then world.Height else (w + 1) * (world.Height / k))
      ≤ world.Height
  by_cases hc : w = k - 1
  · rw [if_pos hc]
  · rw [if_neg hc]
    calc (w + 1) * (world.Height / k)
        ≤ k * (world.Height / k) := mul_le_mul_right' (by omega) _
      _ ≤ world.Height := by
          rw [mul_comm]
          exact Nat.div_mul_le_self _ _

/-- `Start + Height = End` for every band. -/
theorem region_Start_add_Height (world : World) (k w : Nat) (hk : 1 ≤ k)
    (hkh : k ≤ world.Height) (hw : w < k) :
    (world.region w k).Start + (world.region w k).Height
      = (world.region w k).End := by
  have h := region_Start_lt_End world k w hk hkh hw
  show (world.region w k).Start
      + ((world.region w k).End - (world.region w k).Start)
      = (world.region w k).End
  omega

/-- The band row ranges of all workers concatenate to `[0, height)`. -/
theorem partition_cover (world : World) (k : Nat) (hk : 1 ≤ k)
    (hkh : k ≤ world.Height) :
    (List.range k).flatMap (fun w =>
        List.range' ((world.region w k).Start) ((world.region w k).Height))
      = List.range world.Height := by
  have h := partition_flatMap_arith world.Height k hk hkh
  have hfun : (fun w => List.range' ((world.region w k).Start)
        ((world.region w k).Height))
      = (fun w => List.range' (w * (world.Height / k))
          ((if w = k - 1 then world.Height else (w + 1) * (world.Height / k))
            - w * (world.Height / k))) := rfl
  rw [hfun, h]

/-- C3: for `1 ≤ workers ≤ height` the band row ranges are contiguous,
non-overlapping and cover `[0, height)` exactly once (their concatenation in
worker order is the full index range), each band's height is `end - start`
and is positive, successive bands abut, and the band heights sum to the grid
height. -/
theorem partition_exact_cover (world : World) (k : Nat) (hk : 1 ≤ k)
    (hkh : k ≤ world.Height) :
    ((List.range k).flatMap (fun w =>
        List.range' ((world.region w k).Start) ((world.region w k).Height))
      = List.range world.Height) ∧
    (((List.range k).map (fun w => (world.region w k).Height)).sum
      = world.Height) ∧
    (∀ w, w < k → (world.region w k).Height
        = (world.region w k).End - (world.region w k).Start) ∧
    (∀ w, w + 1 < k →
      (world.region (w + 1) k).Start = (world.region w k).End) ∧
    (∀ w, w < k → (world.region w k).Start < (world.region w k).End) := by
  refine ⟨partition_cover world k hk hkh, ?_, ?_, ?_, ?_⟩
  · have hlen := congrArg List.length (partition_cover world k hk hkh)
    rw [List.length_flatMap, List.length_range] at hlen
    rw [← hlen]
    congr 1
    apply List.map_congr_left
    intro w hw
    simp [Function.comp, List.length_range']
  · intro w hw
    rfl
  · intro w hw
    show (w + 1) * (world.Height / k)
        = if w = k - 1 then world.Height else (w + 1) * (world.Height / k)
    rw [if_neg (by omega)]
  · intro w hw
    exact region_Start_lt_End world k w hk hkh hw

/-- Witness for C3 on the 3×1 world split across 2 workers. -/
theorem partition_exact_cover_witness :
    (1 : Nat) ≤ 2 ∧ 2 ≤ exW3.Height ∧
    ((List.range 2).flatMap (fun w =>
        List.range' ((exW3.region w 2).Start) ((exW3.region w 2).Height))
      = List.range exW3.Height) :=
  ⟨by decide, by decide, (partition_exact_cover exW3 2 (by decide) (by decide)).1⟩

/-- C4: each region's row array is `[haloAbove, band rows, haloBelow]` of
length `bandHeight + 2`, where haloAbove is grid row
`(start - 1 + height) % height` (written `start + height - 1` over `Nat`,
the same value for `height ≥ 1`) and haloBelow is grid row `end % height`;
and each worker's halo-below row index is the first band row of worker
`(w + 1) % workers` (toroidal continuity). -/
theorem region_halo_structure (world : World) (k w : Nat) (hk : 1 ≤ k)
    (hkh : k ≤ world.Height) (hw : w < k) :
    ((world.region w k).Field.length = (world.region w k).Height + 2) ∧
    (getRow (world.region w k).Field 0
      = getRow world.Field.Data
          (((world.region w k).Start + world.Height - 1) % world.Height)) ∧
    (∀ r, r < (world.region w k).Height →
      getRow (world.region w k).Field (r + 1)
        = getRow world.Field.Data ((world.region w k).Start + r)) ∧
    (getRow (world.region w k).Field ((world.region w k).Height + 1)
      = getRow world.Field.Data ((world.region w k).End % world.Height)) ∧
    ((world.region w k).End % world.Height
      = (world.region ((w + 1) % k) k).Start) := by
  refine ⟨?_, ?_, ?_, ?_, ?_⟩
  · rw [region_Field_def]
    simp
  · rw [region_Field_def, getRow_cons_zero]
  · intro r hr
    rw [region_Field_def, getRow_cons_succ, getRow_append _ _ r (by simpa using hr),
      getRow_map_range _ _ _ hr]
  · rw [region_Field_def, getRow_cons_succ, getRow_append_right _ _ _ (by simp)]
    simp [getRow_cons_zero]
  · have hbh1 : 1 ≤ world.Height / k := (Nat.one_le_div_iff (by omega)).mpr hkh
    have hkbh : k * (world.Height / k) ≤ world.Height := by
      rw [mul_comm]
      exact Nat.div_mul_le_self _ _
    show (if w = k - 1 then world.Height else (w + 1) * (world.Height / k))
        % world.Height = ((w + 1) % k) * (world.Height / k)
    by_cases hc : w = k - 1
    · rw [if_pos hc, Nat.mod_self]
      have hwk : w + 1 = k := by omega
      rw [hwk, Nat.mod_self]
      simp
    · rw [if_neg hc]
      have hlt : (w + 1) * (world.Height / k) < world.Height := by
        have h1 : (w + 1) * (world.Height / k) + world.Height / k
            ≤ k * (world.Height / k) := by
          have h2 : w + 1 + 1 ≤ k := by omega
          calc (w + 1) * (world.Height / k) + world.Height / k
              = (w + 1 + 1) * (world.Height / k) := by ring
            _ ≤ k * (world.Height / k) := mul_le_mul_right' h2 _
        omega
      rw [Nat.mod_eq_of_lt hlt, Nat.mod_eq_of_lt (by omega)]

/-- Witness for C4: the last worker's halo-below wraps to worker 0's first
band row on the 3×1 world split across 2 workers. -/
theorem region_halo_structure_witness :
    (1 : Nat) ≤ 2 ∧ 2 ≤ exW3.Height ∧ 1 < 2 ∧
    (exW3.region 1 2).End % exW3.Height = (exW3.region ((1 + 1) % 2) 2).Start :=
  ⟨by decide, by decide, by decide,
   (region_halo_structure exW3 2 1 (by decide) (by decide) (by decide)).2.2.2.2⟩

/-- The worker step always returns exactly `Height` rows. -/
theorem region_update_length (region : Region) :
    (region.update).Field.length = region.Height := by
  simp [Region.update]

/-- Row `r` of the worker step's output, for `r` inside the band. -/
theorem getRow_update (region : Region) (r : Nat) (h : r < region.Height) :
    getRow (region.update).Field r
      = (List.range region.Width).map (fun x => region.updateCell (r + 1) x) := by
  show getRow ((List.range region.Height).map _) r = _
  rw [getRow_map_range _ _ _ h]
  simp [DefaultHaloOffset]

/-- Cell `(r, x)` of the worker step's output, for `(r, x)` inside the band. -/
theorem getCell_update (region : Region) (r x : Nat) (hr : r < region.Height)
    (hx : x < region.Width) :
    getCell (region.update).Field r x = region.updateCell (r + 1) x := by
  show (getRow (region.update).Field r).getD x cellZero = _
  rw [getRow_update region r hr]
  exact getD_map_range _ _ _ _ hx

/-- The worker's `+ width` before `% width` is redundant over `Int.emod`. -/
theorem wrapX_emod (width x : Nat) (i : Int) :
    wrapX width x i = (((x : Int) + i) % (width : Int)).toNat := by
  unfold wrapX
  rw [show ((x : Int) + i + (width : Int)) = (x : Int) + i + 1 * (width : Int) by
    ring]
  rw [Int.add_mul_emod_self]

/-- The worker's loop-guard count over 9 offsets equals the 8-offset count
the claim words, position by position. -/
theorem aliveNeighbours_eq_spec (field : List (List Cell)) (width r c : Nat) :
    aliveNeighbours field width (r + 1) c = specAliveNeighbours field width r c := by
  simp only [aliveNeighbours, specAliveNeighbours, offsets, specOffsets,
    List.countP_cons, List.countP_nil, wrapX_emod]
  push_cast
  simp

/-- C2: for a well-formed region (`bandHeight + 2` rows of width `width`,
`width > 0`) the worker step returns exactly `bandHeight` rows (the halo rows
are dropped), and every band cell's output alive state follows the
Game-of-Life rule over its 8 neighbours — self excluded, columns wrapped
modulo `width`, vertical neighbours from adjacent rows of the supplied
array: dead below 2 or above 3, alive at exactly 3, unchanged at exactly 2. -/
theorem region_update_follows_rule (region : Region)
    (hlen : region.Field.length = region.Height + 2)
    (hrows : ∀ row ∈ region.Field, row.length = region.Width)
    (hw : 0 < region.Width) :
    ((region.update).Field.length = region.Height) ∧
    ∀ r, r < region.Height → ∀ c, c < region.Width →
      (getCell (region.update).Field r c).Alive =
        (if specAliveNeighbours region.Field region.Width r c < 2 ∨
            3 < specAliveNeighbours region.Field region.Width r c then false
         else if specAliveNeighbours region.Field region.Width r c = 3 then true
         else (getCell region.Field (r + 1) c).Alive) := by
  refine ⟨region_update_length region, ?_⟩
  intro r hr c hc
  rw [getCell_update region r c hr hc]
  simp only [Region.updateCell, aliveNeighbours_eq_spec]
  by_cases h3 : specAliveNeighbours region.Field region.Width r c = 3
  · simp [h3]
  · by_cases h2 : specAliveNeighbours region.Field region.Width r c < 2 ∨
        3 < specAliveNeighbours region.Field region.Width r c
    · simp [h3, h2]
    · simp [h3, h2]

/-- Witness for C2 on the single-worker region of the 3×1 world. -/
theorem region_update_follows_rule_witness :
    ((exW3.region 0 1).Field.length = (exW3.region 0 1).Height + 2) ∧
    (0 < (exW3.region 0 1).Width) ∧
    (((exW3.region 0 1).update).Field.length = (exW3.region 0 1).Height) :=
  ⟨by decide, by decide,
   (region_update_follows_rule (exW3.region 0 1) (by decide) (by decide)
     (by decide)).1⟩

/-- C10: the worker step changes only the `Alive` field — the output band
cell at `(r, c)` carries the `X` and `Y` fields of the input cell at
position `(r + 1, c)` of the supplied row array. -/
theorem update_preserves_coordinates (region : Region) (r x : Nat)
    (hr : r < region.Height) (hx : x < region.Width) :
    (getCell (region.update).Field r x).X = (getCell region.Field (r + 1) x).X ∧
    (getCell (region.update).Field r x).Y = (getCell region.Field (r + 1) x).Y := by
  rw [getCell_update region r x hr hx]
  simp [Region.updateCell]

/-- Witness for C10 on the single-worker region of the 3×1 world. -/
theorem update_preserves_coordinates_witness :
    (0 : Nat) < (exW3.region 0 1).Height ∧ (0 : Nat) < (exW3.region 0 1).Width ∧
    ((getCell ((exW3.region 0 1).update).Field 0 0).X
        = (getCell (exW3.region 0 1).Field 1 0).X ∧
      (getCell ((exW3.region 0 1).update).Field 0 0).Y
        = (getCell (exW3.region 0 1).Field 1 0).Y) :=
  ⟨by decide, by decide,
   update_preserves_coordinates (exW3.region 0 1) 0 0 (by decide) (by decide)⟩

/-- Cast arithmetic for the vertical offset `-1`. -/
theorem toNat_add_neg_one (y : Nat) : ((y : Int) + (-1)).toNat = y - 1 := by omega

/-- Cast arithmetic for the vertical offset `0`. -/
theorem toNat_add_zero (y : Nat) : ((y : Int) + 0).toNat = y := by omega

/-- Cast arithmetic for the vertical offset `1`. -/
theorem toNat_add_one (y : Nat) : ((y : Int) + 1).toNat = y + 1 := by omega

/-- The worker's neighbour count reads only the three rows around the centre
row, so two fields agreeing on those rows give equal counts. -/
theorem aliveNeighbours_congr (F G : List (List Cell)) (width y z x : Nat)
    (h0 : getRow F (y - 1) = getRow G (z - 1))
    (h1 : getRow F y = getRow G z)
    (h2 : getRow F (y + 1) = getRow G (z + 1)) :
    aliveNeighbours F width y x = aliveNeighbours G width z x := by
  simp only [aliveNeighbours, offsets, List.countP_cons, List.countP_nil,
    getCell, toNat_add_neg_one, toNat_add_zero, toNat_add_one, h0, h1, h2]

/-- The worker's per-cell step reads only the three rows around the centre
row and the region width. -/
theorem updateCell_congr (R S : Region) (y z x : Nat) (hW : R.Width = S.Width)
    (h0 : getRow R.Field (y - 1) = getRow S.Field (z - 1))
    (h1 : getRow R.Field y = getRow S.Field z)
    (h2 : getRow R.Field (y + 1) = getRow S.Field (z + 1)) :
    R.updateCell y x = S.updateCell z x := by
  simp only [Region.updateCell, getCell]
  rw [aliveNeighbours_congr R.Field S.Field R.Width y z x h0 h1 h2, hW, h1]

/-- The single-worker region spans the whole grid. -/
theorem region01_Height (world : World) :
    (world.region 0 1).Height = world.Height := by
  show (if (0 : Nat) = 1 - 1 then world.Height else (0 + 1) * (world.Height / 1))
      - 0 * (world.Height / 1) = world.Height
  simp

/-- The single-worker region starts at row 0. -/
theorem region01_Start (world : World) : (world.region 0 1).Start = 0 := by
  show 0 * (world.Height / 1) = 0
  simp

/-- Every row of a region's row array, halos included, is the grid row
`(Start + m + height - 1) % height` — the uniform toroidal lookup formula. -/
theorem region_getRow (world : World) (k w m : Nat) (hk : 1 ≤ k)
    (hkh : k ≤ world.Height) (hw : w < k)
    (hm : m ≤ (world.region w k).Height + 1) :
    getRow (world.region w k).Field m
      = getRow world.Field.Data
          (((world.region w k).Start + m + world.Height - 1) % world.Height) := by
  have h1h : 1 ≤ world.Height := le_trans hk hkh
  have hEle := region_End_le world k w hk hkh hw
  have hSH := region_Start_add_Height world k w hk hkh hw
  rcases Nat.eq_zero_or_pos m with hm0 | hmpos
  · subst hm0
    rw [region_Field_def, getRow_cons_zero]
    congr 2
  · obtain ⟨r, rfl⟩ : ∃ r, m = r + 1 := ⟨m - 1, by omega⟩
    by_cases hr : r < (world.region w k).Height
    · rw [region_Field_def, getRow_cons_succ,
        getRow_append _ _ r (by simpa using hr), getRow_map_range _ _ _ hr]
      have hSr : (world.region w k).Start + r < world.Height := by omega
      congr 1
      have hidx : (world.region w k).Start + (r + 1) + world.Height - 1
          = ((world.region w k).Start + r) + world.Height := by omega
      rw [hidx, Nat.add_mod_right, Nat.mod_eq_of_lt hSr]
    · have hrH : r = (world.region w k).Height := by omega
      subst hrH
      rw [region_Field_def, getRow_cons_succ, getRow_append_right _ _ _ (by simp)]
      simp only [List.length_map, List.length_range, Nat.sub_self, getRow_cons_zero]
      congr 1
      have hidx : (world.region w k).Start + ((world.region w k).Height + 1)
            + world.Height - 1
          = (world.region w k).End + world.Height := by omega
      rw [hidx, Nat.add_mod_right]

/-- The cell computed at band row `r` by worker `w`'s region step is the cell
the single-worker region computes at global row `Start + r`. -/
theorem region_updateCell_eq_single (world : World) (k w r x : Nat)
    (hk : 1 ≤ k) (hkh : k ≤ world.Height) (hw : w < k)
    (hr : r < (world.region w k).Height) :
    (world.region w k).updateCell (r + 1) x
      = (world.region 0 1).updateCell ((world.region w k).Start + r + 1) x := by
  have h1h : 1 ≤ world.Height := le_trans hk hkh
  have hEle := region_End_le world k w hk hkh hw
  have hSH := region_Start_add_Height world k w hk hkh hw
  have hSr : (world.region w k).Start + r < world.Height := by omega
  have h01H := region01_Height world
  have h01S := region01_Start world
  have hrow : ∀ m, m ≤ (world.region w k).Height + 1 →
      (world.region w k).Start + m ≤ (world.region 0 1).Height + 1 →
      getRow (world.region w k).Field m
        = getRow (world.region 0 1).Field ((world.region w k).Start + m) := by
    intro m hm hm2
    rw [region_getRow world k w m hk hkh hw hm,
      region_getRow world 1 0 ((world.region w k).Start + m) (le_refl 1) h1h
        (by omega) hm2]
    congr 1
    rw [h01S]
    congr 1
    omega
  apply updateCell_congr
  · rfl
  · simp only [Nat.add_sub_cancel]
    exact hrow r (by omega) (by omega)
  · exact hrow (r + 1) (by omega) (by omega)
  · exact hrow (r + 2) (by omega) (by omega)

/-- The data produced by the fan-out/fan-in step equals, row by row, the rows
the single-worker region step produces for the whole grid. -/
theorem world_update_data (world : World) (k : Nat) (hk : 1 ≤ k)
    (hkh : k ≤ world.Height) :
    (world.update k).Field.Data
      = (List.range world.Height).map
          (fun s => getRow ((world.region 0 1).update).Field s) := by
  have h1h : 1 ≤ world.Height := le_trans hk hkh
  have hA : ∀ w ∈ List.range k,
      ((world.region w k).update).Field
        = (List.range' ((world.region w k).Start) ((world.region w k).Height)).map
            (fun s => getRow ((world.region 0 1).update).Field s) := by
    intro w hw
    rw [List.mem_range] at hw
    have hEle := region_End_le world k w hk hkh hw
    have hSH := region_Start_add_Height world k w hk hkh hw
    show (List.range (world.region w k).Height).map
        (fun r => (List.range (world.region w k).Width).map
          (fun x => (world.region w k).updateCell (r + DefaultHaloOffset) x)) = _
    rw [List.range'_eq_map_range, List.map_map]
    apply List.map_congr_left
    intro r hr
    rw [List.mem_range] at hr
    have hSr : (world.region w k).Start + r < world.Height := by omega
    have hb : (world.region w k).Start + r < (world.region 0 1).Height := by
      rw [region01_Height world]
      exact hSr
    show (List.range (world.region w k).Width).map
        (fun x => (world.region w k).updateCell (r + DefaultHaloOffset) x)
      = getRow ((world.region 0 1).update).Field ((world.region w k).Start + r)
    rw [getRow_update (world.region 0 1) ((world.region w k).Start + r) hb,
      region_Width world w k, region_Width world 0 1]
    apply List.map_congr_left
    intro x hx
    simp only [DefaultHaloOffset]
    exact region_updateCell_eq_single world k w r x hk hkh hw hr
  show (List.range k).flatMap
      (fun workerID => ((world.region workerID k).update).Field) = _
  rw [List.flatMap_congr hA, ← List.map_flatMap, partition_cover world k hk hkh]

/-- C1: for `1 ≤ workers ≤ height`, partitioning the world into `workers`
regions, applying the worker rule step to each, and concatenating the
returned bands in worker-index order yields exactly the same world as
running the rule step on the whole grid as a single region. -/
theorem distributed_update_eq_single (world : World) (workers : Nat)
    (hk : 1 ≤ workers) (hkh : workers ≤ world.Height) :
    world.update workers = world.update 1 := by
  have hdk := world_update_data world workers hk hkh
  have hd1 := world_update_data world 1 (le_refl 1) (le_trans hk hkh)
  have hdata : (world.update workers).Field.Data
      = (world.update 1).Field.Data := hdk.trans hd1.symm
  exact congrArg
    (fun d => { world with Field := { world.Field with Data := d } }) hdata

/-- Witness for C1: splitting the 3×1 world across 2 workers gives the same
next generation as the single-worker run. -/
theorem distributed_update_eq_single_witness :
    (1 : Nat) ≤ 2 ∧ 2 ≤ exW3.Height ∧ exW3.update 2 = exW3.update 1 :=
  ⟨by decide, by decide,
   distributed_update_eq_single exW3 2 (by decide) (by decide)⟩

end GoL
